import Mathlib

/-!
Verification of the go-mcp-registry client library.

The repository source provides the transport core (client.go: WithBaseURL,
NewClient, NewRequest, parseRate, Do, addOptions) together with its unit and
integration tests.  The wire types (ServerJSON, ServerResponse, registry
metadata) are external imports in the source and are modelled minimally with
the fields the claims use.  The services layer (servers.go) and the error
taxonomy (errors.go) are not part of the provided sources; those operations
are modelled from the specification, as marked on each definition.
-/

/-- One named, versioned resource record as returned by the registry (the
external wire type registryv0.ServerJSON, modelled with the fields the
claims use). -/
structure ServerJSON where
  name : String
  version : String
  description : String := ""
deriving DecidableEq

/-- Registry metadata block attached to list-style records (the external wire
type registryv0.RegistryExtensions, modelled with the status field the claims
use). -/
structure RegistryExtensions where
  status : String
  isLatest : Bool := false
deriving DecidableEq

/-- A wrapped list-endpoint record: the record plus its optional official
registry-metadata block (the external wire type registryv0.ServerResponse). -/
structure ServerResponse where
  server : ServerJSON
  official : Option RegistryExtensions := none
deriving DecidableEq

/-- A semantic-version pre-release identifier: numeric identifiers compare
numerically and are lower than alphanumeric identifiers, which compare in
ASCII order. -/
inductive PreId where
  | num (n : Nat)
  | str (s : List Char)
deriving DecidableEq

/-- A parsed semantic version: major.minor.patch with optional dot-separated
pre-release identifiers and build metadata (build is ignored by precedence). -/
structure SemVer where
  major : Nat
  minor : Nat
  patch : Nat
  pre : List PreId := []
  build : List Char := []
deriving DecidableEq

/-- Order key of a pre-release identifier: numeric identifiers sort below
alphanumeric ones (Sum.Lex), numerics by value, alphanumerics by ASCII. -/
def PreId.key : PreId → Nat ⊕ₗ List Char
  | .num n => toLex (Sum.inl n)
  | .str s => toLex (Sum.inr s)

/-- Precedence key of a semantic version, per the standard semantic-versioning
precedence rules: lexicographic on (major, minor, patch), then a release
(empty pre-release) outranks any pre-release, then pre-release identifier
lists compare lexicographically; build metadata does not participate. -/
def SemVer.key (v : SemVer) :
    Nat ×ₗ Nat ×ₗ Nat ×ₗ Bool ×ₗ List (Nat ⊕ₗ List Char) :=
  toLex (v.major, toLex (v.minor, toLex (v.patch,
    toLex (v.pre.isEmpty, v.pre.map PreId.key))))

/-- Decimal digit test used by the version and header parsers. -/
def isDigitCh (c : Char) : Bool := c.isDigit

/-- Character allowed in a semver pre-release or build identifier. -/
def isIdentCh (c : Char) : Bool := c.isDigit || c.isAlpha || c == '-'

/-- Reads a digit list as a base-10 natural number. -/
def digitsToNat (l : List Char) : Nat :=
  l.foldl (fun acc c => acc * 10 + (c.toNat - 48)) 0

/-- Parses a semver numeric component: digits only, nonempty, no leading
zero (except the single digit 0). -/
def parseNumeric (l : List Char) : Option Nat :=
  if l.isEmpty then none
  else if l.all isDigitCh then
    if 1 < l.length && l.head? == some '0' then none
    else some (digitsToNat l)
  else none

/-- Parses one pre-release identifier: numeric identifiers must not have
leading zeros; otherwise any nonempty run of alphanumerics and hyphens. -/
def parsePreIdent (l : List Char) : Option PreId :=
  if l.isEmpty then none
  else if l.all isDigitCh then
    if 1 < l.length && l.head? == some '0' then none
    else some (.num (digitsToNat l))
  else if l.all isIdentCh then some (.str l)
  else none

/-- Validates one build-metadata identifier (nonempty, alphanumerics and
hyphens). -/
def validBuildIdent (l : List Char) : Bool :=
  !l.isEmpty && l.all isIdentCh

/-- Modelled from the spec: the semantic-version parser used by the version
resolution engine is not in the provided sources (servers.go and its version
dependency are absent); the glossary defines a semantic version as a string
parseable per major.minor.patch(-prerelease)(+build) rules, implemented here
per the semver 2.0.0 grammar. -/
def parseSemVer (s : String) : Option SemVer :=
  let cs := s.data
  let beforePlus := cs.takeWhile (fun c => c ≠ '+')
  let plusRest := cs.dropWhile (fun c => c ≠ '+')
  let core := beforePlus.takeWhile (fun c => c ≠ '-')
  let dashRest := beforePlus.dropWhile (fun c => c ≠ '-')
  match core.splitOn '.' with
  | [ma, mi, pa] =>
    match parseNumeric ma, parseNumeric mi, parseNumeric pa with
    | some major, some minor, some patch =>
      let preIds : Option (List PreId) :=
        if dashRest.isEmpty then some []
        else ((dashRest.drop 1).splitOn '.').mapM parsePreIdent
      let buildOk : Bool :=
        if plusRest.isEmpty then true
        else ((plusRest.drop 1).splitOn '.').all validBuildIdent
      match preIds with
      | some pre =>
        if buildOk then some ⟨major, minor, patch, pre, plusRest.drop 1⟩
        else none
      | none => none
    | _, _, _ => none
  | _ => none

/-- Modelled from the spec: servers.go is absent from the provided sources.
A record is active when its registry-metadata status is the active status;
a record with absent registry metadata is not active. -/
def isActive (r : ServerResponse) : Bool :=
  match r.official with
  | some m => m.status == "active"
  | none => false

/-- Modelled from the spec: servers.go is absent from the provided sources.
ListByName filters the search response client-side to the records whose name
is exactly the queried name, preserving server order, and unwraps them. -/
def ListByName (name : String) (received : List ServerResponse) :
    List ServerJSON :=
  (received.filter (fun r => r.server.name == name)).map (fun r => r.server)

/-- Modelled from the spec: servers.go is absent from the provided sources.
The candidate pipeline of GetByNameLatestActiveVersion: exact-name filter,
active-status filter (absent metadata discarded), then semantic-version
parsing (unparsable versions skipped, not errored), preserving server order. -/
def activeCands (name : String) (received : List ServerResponse) :
    List (ServerJSON × SemVer) :=
  (received.filter (fun r => r.server.name == name && isActive r)).filterMap
    (fun r => (parseSemVer r.server.version).map (fun v => (r.server, v)))

/-- Modelled from the spec: servers.go is absent from the provided sources.
Selects the maximum candidate by semantic-version precedence; on equal
maximal versions the first-encountered candidate in server order wins (a
later candidate replaces the current best only when strictly greater). -/
def selectLatest : List (ServerJSON × SemVer) → Option (ServerJSON × SemVer)
  | [] => none
  | c :: rest =>
    match selectLatest rest with
    | none => some c
    | some b => if c.2.key < b.2.key then some b else some c

/-- Modelled from the spec: servers.go is absent from the provided sources.
GetByNameLatestActiveVersion resolves a name to the active, semver-parseable
candidate with the greatest semantic version, or none. -/
def GetByNameLatestActiveVersion (name : String)
    (received : List ServerResponse) : Option ServerJSON :=
  (selectLatest (activeCands name received)).map (fun c => c.1)

/-- A parsed base URL as produced by the standard-library URL parser (an
external collaborator of client.go), modelled with the components WithBaseURL
reads and writes. -/
structure URL where
  scheme : String
  host : String := ""
  path : String := ""
  rawQuery : String := ""
deriving DecidableEq

/-- True when the path already ends with the path separator (the source
checks strings.HasSuffix(path, the separator)). -/
def endsWithSlash (s : String) : Bool :=
  s.data.getLast? == some '/'

/-- Trailing-separator normalization applied by WithBaseURL (from client.go):
append one separator exactly when the path does not already end in one. -/
def normalizePath (p : String) : String :=
  if endsWithSlash p then p else p ++ "/"

/-- From client.go WithBaseURL: reject an empty base URL, a base URL the URL
parser fails on, and a scheme other than http or https; otherwise normalize
the parsed path to end with the separator.  The outcome of the external URL
parser on the raw string is passed in explicitly. -/
def WithBaseURL (baseURL : String) (parsed : Except String URL) :
    Except String URL :=
  if baseURL = "" then .error "base URL cannot be empty"
  else
    match parsed with
    | .error e => .error ("invalid base URL: " ++ e)
    | .ok u =>
      if u.scheme ≠ "http" ∧ u.scheme ≠ "https" then
        .error ("base URL must use HTTP or HTTPS scheme, got: " ++ u.scheme)
      else .ok { u with path := normalizePath u.path }

/-- A calendar timestamp as produced by the standard-library RFC3339 parser
(an external collaborator), modelled as its broken-down components. -/
structure RFCTime where
  year : Nat
  month : Nat
  day : Nat
  hour : Nat
  minute : Nat
  second : Nat
deriving DecidableEq

/-- The zero time value: the source skips a parsed reset timestamp that
IsZero reports as the zero time. -/
def zeroTime : RFCTime := ⟨1, 1, 1, 0, 0, 0⟩

/-- Parses a fixed run of decimal digits. -/
def parseFixedNat (l : List Char) : Option Nat :=
  if l.isEmpty then none
  else if l.all isDigitCh then some (digitsToNat l)
  else none

/-- The standard-library RFC3339 timestamp parser (external collaborator),
modelled for the canonical UTC form YYYY-MM-DDTHH:MM:SSZ used by the
registry rate headers; other inputs fail to parse. -/
def parseRFC3339 (s : String) : Option RFCTime :=
  match s.data with
  | [y1, y2, y3, y4, '-', m1, m2, '-', d1, d2, 'T',
     h1, h2, ':', n1, n2, ':', e1, e2, 'Z'] =>
    match parseFixedNat [y1, y2, y3, y4], parseFixedNat [m1, m2],
          parseFixedNat [d1, d2], parseFixedNat [h1, h2],
          parseFixedNat [n1, n2], parseFixedNat [e1, e2] with
    | some y, some mo, some d, some h, some mi, some se =>
      if 1 ≤ mo ∧ mo ≤ 12 ∧ 1 ≤ d ∧ d ≤ 31 ∧ h ≤ 23 ∧ mi ≤ 59 ∧ se ≤ 59 then
        some ⟨y, mo, d, h, mi, se⟩
      else none
    | _, _, _, _, _, _ => none
  | _ => none

/-- The integer scan the source performs on a rate header value (fmt.Sscanf
with the decimal verb, an external collaborator): skip leading spaces, read
an optional sign and a nonempty digit run; on failure the target is left at
zero by the caller. -/
def sscanfInt (s : String) : Option Int :=
  let cs := s.data.dropWhile (fun c => c == ' ')
  let signNeg : Bool :=
    match cs with
    | '-' :: _ => true
    | _ => false
  let cs2 : List Char :=
    match cs with
    | '-' :: rest => rest
    | '+' :: rest => rest
    | l => l
  let digits := cs2.takeWhile isDigitCh
  if digits.isEmpty then none
  else if signNeg then some (-(digitsToNat digits : Int))
  else some ((digitsToNat digits : Int))

/-- Rate State parsed from the three rate-limit response headers; absent
headers leave zero values. -/
structure Rate where
  limit : Int := 0
  remaining : Int := 0
  reset : Option RFCTime := none
deriving DecidableEq

/-- The three rate-limit headers of a response; a header the response lacks
reads as the empty string, as the source's header getter reports it. -/
structure RateHeaders where
  limit : String := ""
  remaining : String := ""
  reset : String := ""
deriving DecidableEq

/-- From client.go parseRate: each of the limit and remaining headers is
scanned as a decimal integer when present (a failed scan leaves zero), and
the reset header is parsed as RFC3339 and kept only when it parses to a
non-zero time. -/
def parseRate (h : RateHeaders) : Rate :=
  let lim : Int := if h.limit ≠ "" then (sscanfInt h.limit).getD 0 else 0
  let rem : Int := if h.remaining ≠ "" then (sscanfInt h.remaining).getD 0 else 0
  let rst : Option RFCTime :=
    if h.reset ≠ "" then
      match parseRFC3339 h.reset with
      | some t => if t ≠ zeroTime then some t else none
      | none => none
    else none
  { limit := lim, remaining := rem, reset := rst }

/-- The closed error taxonomy of the client (spec section 7): configuration,
API, rate-limit, decode and transport errors. -/
inductive ClientError where
  | config (msg : String)
  | api (status : Nat) (message : String) (details : List (String × String))
  | rateLimit (status : Nat) (message : String) (rate : Rate)
  | decode (msg : String)
  | transport (msg : String)
deriving DecidableEq

/-- How the response body behaves when the executor decodes it into a value
of the requested type (the JSON decoder is an external collaborator): a
decoded value, the end-of-input outcome of an empty body, or a syntax error
on malformed JSON. -/
inductive DecodeOutcome (α : Type) where
  | value (a : α)
  | emptyEOF
  | synErr (msg : String)
deriving DecidableEq

/-- An HTTP response as the executor sees it: status code, rate headers, the
body's decode behaviour for the requested output type, and the body's parse
as the structured error envelope (message plus field details) used on the
error path. -/
structure HttpResponse (α : Type) where
  status : Nat
  headers : RateHeaders := {}
  body : DecodeOutcome α := .emptyEOF
  errMessage : String := ""
  errDetails : List (String × String) := []

/-- Modelled from the spec: errors.go is absent from the provided sources.
CheckResponse classifies a response: 2xx passes, 429 becomes a rate-limit
error carrying the Rate State parsed from the headers, and any other status
becomes an API error carrying the status and the parsed error envelope. -/
def CheckResponse {α : Type} (r : HttpResponse α) : Option ClientError :=
  if 200 ≤ r.status ∧ r.status ≤ 299 then none
  else if r.status = 429 then
    some (.rateLimit r.status r.errMessage (parseRate r.headers))
  else some (.api r.status r.errMessage r.errDetails)

/-- The observable outcome of one executor call: how many HTTP requests were
sent, the rate recorded into the per-path cache, and the decoded value or
error. -/
structure DoResult (α : Type) where
  sent : Nat
  recordedRate : Option Rate
  out : Except ClientError α

/-- From client.go Do: a nil context fails immediately (before any request is
sent); otherwise one request is sent, the rate headers are recorded
unconditionally, the response is classified by CheckResponse, and on success
the body is decoded — an empty body is ignored (the end-of-input outcome
leaves the output at the value it held before the call), malformed JSON
surfaces as a decode error.  The initial output value v plays the role of
the zero value the caller passes in. -/
def Do {α : Type} (ctx : Option Unit) (r : HttpResponse α) (v : α) :
    DoResult α :=
  match ctx with
  | none => ⟨0, none, .error (.config "context must be non-nil")⟩
  | some _ =>
    let rate := parseRate r.headers
    match CheckResponse r with
    | some e => ⟨1, some rate, .error e⟩
    | none =>
      match r.body with
      | .value a => ⟨1, some rate, .ok a⟩
      | .emptyEOF => ⟨1, some rate, .ok v⟩
      | .synErr m => ⟨1, some rate, .error (.decode m)⟩

/-- Modelled from the spec: servers.go is absent from the provided sources.
Get decodes the single-record response into an optional wrapped record (a
JSON null body decodes to none, the zero value of the pointer target) and
unwraps the record; the unit tests pin that every executor error, a 404
included, is propagated to the caller. -/
def Get (ctx : Option Unit) (r : HttpResponse (Option ServerResponse)) :
    DoResult (Option ServerJSON) :=
  let d := Do ctx r none
  ⟨d.sent, d.recordedRate, d.out.map (fun p => p.map (fun sr => sr.server))⟩

/-- Modelled from the spec: servers.go is absent from the provided sources.
GetByNameExactVersion calls the dedicated name-plus-version endpoint and
processes the response exactly as Get does; the unit test
TestServersService_GetByNameExactVersion pins that a 404 surfaces as the
classified API error (the spec sentence claiming a silent no-record outcome
for 404 conflicts with that test). -/
def GetByNameExactVersion (ctx : Option Unit)
    (r : HttpResponse (Option ServerResponse)) : DoResult (Option ServerJSON) :=
  let d := Do ctx r none
  ⟨d.sent, d.recordedRate, d.out.map (fun p => p.map (fun sr => sr.server))⟩

/-- The list-request options struct (pagination fields plus the server-side
filters), modelled with the embedded ListOptions flattened; zero values mean
the field is unset, as in the source's omitempty url tags.  The
updated-since filter carries its already RFC3339-encoded value. -/
structure ServerListOptions where
  limit : Nat := 0
  cursor : String := ""
  search : String := ""
  version : String := ""
  updatedSince : Option String := none
deriving DecidableEq

/-- From client.go addOptions together with the option structs' url tags (the
query encoder is an external collaborator): each non-zero field is encoded
under its query-parameter name, zero fields are omitted, and the encoder
emits keys in alphabetical order. -/
def serverListQuery (opts : Option ServerListOptions) :
    List (String × String) :=
  match opts with
  | none => []
  | some o =>
    (if o.cursor ≠ "" then [("cursor", o.cursor)] else []) ++
    (if o.limit ≠ 0 then [("limit", toString o.limit)] else []) ++
    (if o.search ≠ "" then [("search", o.search)] else []) ++
    (match o.updatedSince with
     | some t => [("updated_since", t)]
     | none => []) ++
    (if o.version ≠ "" then [("version", o.version)] else [])

/-- The default page size constant used by the resolution and time-filter
helpers. -/
def defaultListLimit : Nat := 100

/-- The query parameters of the single search request ListByName issues:
the name as the free-text search plus the default page size. -/
def listByNameQuery (name : String) : List (String × String) :=
  serverListQuery (some { search := name, limit := defaultListLimit })

/-- The query parameters of the single search request GetByNameLatest
issues: as ListByName plus the latest-version filter hint. -/
def getByNameLatestQuery (name : String) : List (String × String) :=
  serverListQuery
    (some { search := name, version := "latest", limit := defaultListLimit })

/-- The query parameters of the single search request
GetByNameLatestActiveVersion issues (the same search as ListByName). -/
def getByNameLatestActiveVersionQuery (name : String) :
    List (String × String) :=
  listByNameQuery name

/-- One page outcome of the list endpoint as the pagination loop sees it:
either a decoded page (records plus next cursor) or a failed page request. -/
inductive PageResult where
  | ok (servers : List ServerResponse) (nextCursor : String)
  | fail (e : ClientError)

/-- A page outcome at which the pagination loop stops: a failed request or a
page whose next cursor is empty. -/
def pageIsTerminal : PageResult → Bool
  | .fail _ => true
  | .ok _ next => next == ""

/-- Modelled from the spec: servers.go is absent from the provided sources.
The cursor-driven pagination loop behind ListAll and ListByUpdatedSince: one
list request per page, each response's next cursor becomes the next
request's cursor, the loop stops at the first empty next cursor or the
first error (discarding any accumulated records), and on success the
per-page record lists are concatenated in order and unwrapped.  The server
is modelled as the sequence of page outcomes it answers with; a request the
modelled server never answers is a transport failure. -/
def ListAllLoop (opts : ServerListOptions) :
    List PageResult →
      List (List (String × String)) × Except ClientError (List ServerJSON)
  | [] => ([serverListQuery (some opts)], .error (.transport "no response"))
  | .fail e :: _ => ([serverListQuery (some opts)], .error e)
  | .ok servers next :: rest =>
    if next = "" then
      ([serverListQuery (some opts)], .ok (servers.map (fun r => r.server)))
    else
      let r := ListAllLoop { opts with cursor := next } rest
      (serverListQuery (some opts) :: r.1,
       r.2.map (fun tail => servers.map (fun sr => sr.server) ++ tail))

/-- Modelled from the spec: servers.go is absent from the provided sources.
ListAll runs the pagination loop on the caller's options as given (nil
options become the empty options value; the unit test pins that no default
page size is injected here). -/
def ListAll (opts : Option ServerListOptions) (resps : List PageResult) :
    List (List (String × String)) × Except ClientError (List ServerJSON) :=
  ListAllLoop (opts.getD {}) resps

/-- Modelled from the spec: servers.go is absent from the provided sources.
ListByUpdatedSince runs the pagination loop with the RFC3339-encoded
timestamp as the server-side updated-since filter and the default page size
on every page request. -/
def ListByUpdatedSince (since : String) (resps : List PageResult) :
    List (List (String × String)) × Except ClientError (List ServerJSON) :=
  ListAllLoop { limit := defaultListLimit, updatedSince := some since } resps

/-- The request-query chain the pagination loop issues when the successive
pages answer with the given next cursors: the first request uses the options
as given, every later request carries the previous page's next cursor. -/
def requestChain (opts : ServerListOptions) :
    List String → List (List (String × String))
  | [] => [serverListQuery (some opts)]
  | c :: cs => serverListQuery (some opts) :: requestChain { opts with cursor := c } cs

/-- The selection fold returns none exactly on the empty candidate list, and
otherwise a candidate of maximal precedence that strictly dominates every
candidate placed before it (first-encountered tie-break). -/
theorem selectLatest_spec (l : List (ServerJSON × SemVer)) :
    (selectLatest l = none → l = []) ∧
    (∀ b, selectLatest l = some b →
      ∃ l1 l2, l = l1 ++ b :: l2 ∧
        (∀ c ∈ l, c.2.key ≤ b.2.key) ∧
        (∀ c ∈ l1, c.2.key < b.2.key)) := by
  induction l with
  | nil =>
    exact ⟨fun _ => rfl, fun b hb => by simp [selectLatest] at hb⟩
  | cons c rest ih =>
    rcases hr : selectLatest rest with _ | b0
    · have hrest : rest = [] := ih.1 hr
      subst hrest
      refine ⟨fun h => ?_, fun b hb => ?_⟩
      · rw [show selectLatest [c] = some c from by simp [selectLatest]] at h
        cases h
      · rw [show selectLatest [c] = some c from by simp [selectLatest]] at hb
        cases hb
        exact ⟨[], [], rfl, by simp, by simp⟩
    · obtain ⟨l1, l2, hdec, hall, hbef⟩ := ih.2 b0 hr
      have hsel : selectLatest (c :: rest)
          = if c.2.key < b0.2.key then some b0 else some c := by
        simp [selectLatest, hr]
      by_cases hlt : c.2.key < b0.2.key
      · rw [if_pos hlt] at hsel
        refine ⟨fun h => ?_, fun b hb => ?_⟩
        · rw [hsel] at h; cases h
        · rw [hsel] at hb
          cases hb
          refine ⟨c :: l1, l2, by rw [hdec, List.cons_append], ?_, ?_⟩
          · intro x hx
            rcases List.mem_cons.mp hx with h1 | h2
            · exact h1 ▸ le_of_lt hlt
            · exact hall x h2
          · intro x hx
            rcases List.mem_cons.mp hx with h1 | h2
            · exact h1 ▸ hlt
            · exact hbef x h2
      · rw [if_neg hlt] at hsel
        have hle : b0.2.key ≤ c.2.key := not_lt.mp hlt
        refine ⟨fun h => ?_, fun b hb => ?_⟩
        · rw [hsel] at h; cases h
        · rw [hsel] at hb
          cases hb
          refine ⟨[], rest, rfl, ?_, by simp⟩
          intro x hx
          rcases List.mem_cons.mp hx with h1 | h2
          · exact h1 ▸ le_refl _
          · exact le_trans (hall x h2) hle

/-- Membership in the candidate pipeline comes exactly from a received record
with the exact name, active status and a parseable version. -/
theorem activeCands_mem (name : String) (received : List ServerResponse)
    (c : ServerJSON × SemVer) (h : c ∈ activeCands name received) :
    ∃ r ∈ received, r.server = c.1 ∧ c.1.name = name ∧ isActive r = true ∧
      parseSemVer c.1.version = some c.2 := by
  simp only [activeCands, List.mem_filterMap, List.mem_filter,
    Bool.and_eq_true, beq_iff_eq, Option.map_eq_some'] at h
  obtain ⟨r, ⟨hmem, hname, hact⟩, v, hv, hpair⟩ := h
  refine ⟨r, hmem, ?_, ?_, hact, ?_⟩
  · rw [← hpair]
  · rw [← hpair]; exact hname
  · rw [← hpair]; simpa using hv

/-- A received record with the exact name, active status and a parseable
version contributes itself to the candidate pipeline. -/
theorem activeCands_mem_of (name : String) (received : List ServerResponse)
    (r : ServerResponse) (v : SemVer) (hmem : r ∈ received)
    (hname : r.server.name = name) (hact : isActive r = true)
    (hv : parseSemVer r.server.version = some v) :
    (r.server, v) ∈ activeCands name received := by
  simp only [activeCands, List.mem_filterMap, List.mem_filter,
    Bool.and_eq_true, beq_iff_eq, Option.map_eq_some']
  exact ⟨r, ⟨hmem, hname, hact⟩, v, hv, rfl⟩

/-- C1: for every candidate record set returned by the search request,
GetByNameLatestActiveVersion returns no record exactly when no exactly-named
candidate is both active (absent registry metadata counts as non-active) and
parseable as a semantic version; otherwise it returns an active,
semver-parseable record with the exact name whose version precedence is at
least that of every other active, semver-parseable exactly-named candidate,
and on equal maximal versions the first-encountered candidate in server
order is returned (every earlier candidate is strictly smaller). -/
theorem getByNameLatestActiveVersion_correct (name : String)
    (received : List ServerResponse) :
    (GetByNameLatestActiveVersion name received = none →
      ∀ r ∈ received, r.server.name = name → isActive r = true →
        parseSemVer r.server.version = none) ∧
    (∀ s, GetByNameLatestActiveVersion name received = some s →
      ∃ v, parseSemVer s.version = some v ∧ s.name = name ∧
        (∃ r ∈ received, r.server = s ∧ isActive r = true) ∧
        (∀ r ∈ received, r.server.name = name → isActive r = true →
          ∀ w, parseSemVer r.server.version = some w → w.key ≤ v.key) ∧
        (∃ l1 l2, activeCands name received = l1 ++ (s, v) :: l2 ∧
          ∀ c ∈ l1, c.2.key < v.key)) := by
  constructor
  · intro hnone r hmem hname hact
    have hsel : selectLatest (activeCands name received) = none := by
      simpa [GetByNameLatestActiveVersion, Option.map_eq_none'] using hnone
    have hcands : activeCands name received = [] :=
      (selectLatest_spec (activeCands name received)).1 hsel
    cases hp : parseSemVer r.server.version with
    | none => rfl
    | some w =>
      exfalso
      have := activeCands_mem_of name received r w hmem hname hact hp
      rw [hcands] at this
      cases this
  · intro s hs
    have hmap : ∃ b, selectLatest (activeCands name received) = some b ∧
        b.1 = s := by
      simpa [GetByNameLatestActiveVersion, Option.map_eq_some'] using hs
    obtain ⟨b, hb, hb1⟩ := hmap
    obtain ⟨l1, l2, hdec, hall, hbef⟩ :=
      (selectLatest_spec (activeCands name received)).2 b hb
    have hbmem : b ∈ activeCands name received := by
      rw [hdec]; exact List.mem_append_right l1 (List.mem_cons_self b l2)
    obtain ⟨r, hrmem, hrserver, hbname, hract, hbparse⟩ :=
      activeCands_mem name received b hbmem
    refine ⟨b.2, ?_, ?_, ⟨r, hrmem, by rw [hrserver, hb1], hract⟩, ?_, ?_⟩
    · rw [← hb1]; exact hbparse
    · rw [← hb1]; exact hbname
    · intro r2 hmem2 hname2 hact2 w hw
      exact hall (r2.server, w)
        (activeCands_mem_of name received r2 w hmem2 hname2 hact2 hw)
    · refine ⟨l1, l2, ?_, hbef⟩
      rw [hdec]
      congr 1
      rw [← hb1]

/-- The scenario of the spec: candidates 1.0.0 active, 2.0.0 deprecated and
1.5.0 active for the queried name, used as the concrete record set. -/
def demoReceived : List ServerResponse :=
  [⟨{ name := "test-server", version := "1.0.0" },
      some { status := "active" }⟩,
   ⟨{ name := "test-server", version := "2.0.0" },
      some { status := "deprecated" }⟩,
   ⟨{ name := "test-server", version := "1.5.0" },
      some { status := "active" }⟩]

/-- The record the resolver is expected to pick in the scenario. -/
def demoBest : ServerJSON := { name := "test-server", version := "1.5.0" }

/-- Witness for C1 at the spec scenario: the 1.5.0 active record is selected
and satisfies the stated characterization. -/
theorem getByNameLatestActiveVersion_correct_witness :
    GetByNameLatestActiveVersion "test-server" demoReceived = some demoBest ∧
    (∃ v, parseSemVer demoBest.version = some v ∧
      demoBest.name = "test-server" ∧
      (∃ r ∈ demoReceived, r.server = demoBest ∧ isActive r = true) ∧
      (∀ r ∈ demoReceived, r.server.name = "test-server" →
        isActive r = true →
        ∀ w, parseSemVer r.server.version = some w → w.key ≤ v.key) ∧
      (∃ l1 l2, activeCands "test-server" demoReceived
          = l1 ++ (demoBest, v) :: l2 ∧
        ∀ c ∈ l1, c.2.key < v.key)) :=
  ⟨by decide,
   (getByNameLatestActiveVersion_correct "test-server" demoReceived).2
     demoBest (by decide)⟩

/-- C2: for every server search response, ListByName returns exactly the
records whose name field is character-for-character equal to the queried
name, in server-received order (the result is the exact-name filter of the
server-order record list, hence a sublist of it), and never a near-match
(every returned record carries exactly the queried name); every received
record with the queried name is returned. -/
theorem listByName_exact (name : String) (received : List ServerResponse) :
    ListByName name received
      = (received.map (fun r => r.server)).filter (fun s => s.name == name) ∧
    (∀ s ∈ ListByName name received, s.name = name) ∧
    (ListByName name received).Sublist (received.map (fun r => r.server)) ∧
    (∀ r ∈ received, r.server.name = name →
      r.server ∈ ListByName name received) := by
  have key : ListByName name received
      = (received.map (fun r => r.server)).filter (fun s => s.name == name) := by
    unfold ListByName
    induction received with
    | nil => rfl
    | cons a t ih =>
      by_cases h : a.server.name == name <;>
        simp only [List.filter_cons, List.map_cons, h, if_pos, if_neg,
          Bool.false_eq_true, ite_true, ite_false, List.map] <;>
        rw [ih]
  refine ⟨key, ?_, ?_, ?_⟩
  · intro s hs
    rw [key] at hs
    exact beq_iff_eq.mp (List.mem_filter.mp hs).2
  · rw [key]
    exact List.filter_sublist _
  · intro r hr hname
    rw [key]
    exact List.mem_filter.mpr
      ⟨List.mem_map_of_mem (fun x => x.server) hr, beq_iff_eq.mpr hname⟩

/-- The search response of the near-match scenario: the server answers the
exact record and a near-match whose name merely extends the query. -/
def demoSearch : List ServerResponse :=
  [⟨{ name := "exact-name", version := "1.0.0" }, some { status := "active" }⟩,
   ⟨{ name := "exact-name-plus", version := "2.0.0" },
      some { status := "active" }⟩]

/-- Witness for C2 at the near-match scenario: the exact record is returned
and the near-match is filtered out. -/
theorem listByName_exact_witness :
    ListByName "exact-name" demoSearch
      = [{ name := "exact-name", version := "1.0.0" }] ∧
    ({ name := "exact-name", version := "1.0.0" } : ServerJSON)
      ∈ ListByName "exact-name" demoSearch :=
  ⟨by decide,
   (listByName_exact "exact-name" demoSearch).2.2.2
     ⟨{ name := "exact-name", version := "1.0.0" },
        some { status := "active" }⟩
     (by decide) (by decide)⟩

/-- C4: for every sequence of server pages (any number of non-terminal pages
with non-empty next cursors, then a terminal outcome, then anything the loop
must never reach), the pagination loop issues exactly one request per
consumed page, threads each response's next cursor into the next request,
stops at the first empty next cursor, returns the in-order concatenation of
the per-page record lists on success, and returns the error alone (no
partial accumulated results) when a page request fails. -/
theorem listAll_pagination (opts : ServerListOptions)
    (good : List (List ServerResponse × String))
    (hgood : ∀ p ∈ good, p.2 ≠ "")
    (last : PageResult) (hlast : pageIsTerminal last = true)
    (rest : List PageResult) :
    (ListAllLoop opts
        (good.map (fun p => PageResult.ok p.1 p.2) ++ last :: rest)).1.length
      = good.length + 1 ∧
    (ListAllLoop opts
        (good.map (fun p => PageResult.ok p.1 p.2) ++ last :: rest)).1
      = requestChain opts (good.map (fun p => p.2)) ∧
    (∀ e, last = .fail e →
      (ListAllLoop opts
          (good.map (fun p => PageResult.ok p.1 p.2) ++ last :: rest)).2
        = .error e) ∧
    (∀ servers, last = .ok servers "" →
      (ListAllLoop opts
          (good.map (fun p => PageResult.ok p.1 p.2) ++ last :: rest)).2
        = .ok (((good.map (fun p => p.1)).flatten ++ servers).map
            (fun r => r.server))) := by
  induction good generalizing opts with
  | nil =>
    simp only [List.map_nil, List.nil_append, List.length_nil]
    cases last with
    | fail e =>
      refine ⟨by simp [ListAllLoop], by simp [ListAllLoop, requestChain],
        ?_, ?_⟩
      · intro e0 he0
        cases he0
        simp [ListAllLoop]
      · intro servers hs
        cases hs
    | ok servers next =>
      have hnext : next = "" := by
        simpa [pageIsTerminal] using hlast
      subst hnext
      refine ⟨by simp [ListAllLoop], by simp [ListAllLoop, requestChain],
        ?_, ?_⟩
      · intro e0 he0
        cases he0
      · intro servers0 hs
        cases hs
        simp [ListAllLoop]
  | cons p gs ih =>
    have hp : p.2 ≠ "" := hgood p (List.mem_cons_self p gs)
    have hgs : ∀ q ∈ gs, q.2 ≠ "" :=
      fun q hq => hgood q (List.mem_cons_of_mem p hq)
    obtain ⟨ihlen, ihreq, iherr, ihok⟩ :=
      ih { opts with cursor := p.2 } hgs
    have hunfold : ListAllLoop opts
        ((p :: gs).map (fun q => PageResult.ok q.1 q.2) ++ last :: rest)
        = (serverListQuery (some opts) ::
            (ListAllLoop { opts with cursor := p.2 }
              (gs.map (fun q => PageResult.ok q.1 q.2) ++ last :: rest)).1,
           (ListAllLoop { opts with cursor := p.2 }
              (gs.map (fun q => PageResult.ok q.1 q.2) ++ last :: rest)).2.map
             (fun tail => p.1.map (fun sr => sr.server) ++ tail)) := by
      simp [ListAllLoop, hp]
    refine ⟨?_, ?_, ?_, ?_⟩
    · rw [hunfold]
      simp only [List.length_cons, ihlen]
    · rw [hunfold]
      simp only [List.map_cons, requestChain]
      rw [ihreq]
    · intro e he
      rw [hunfold]
      simp only
      rw [iherr e he]
      rfl
    · intro servers hs
      rw [hunfold]
      simp only
      rw [ihok servers hs]
      simp [Except.map, List.flatten, List.map_append, List.append_assoc]

/-- The first page of the pagination scenario: two records and a non-empty
next cursor. -/
def demoPage1 : List ServerResponse × String :=
  ([⟨{ name := "server1", version := "1.0.0" }, some { status := "active" }⟩,
    ⟨{ name := "server2", version := "2.0.0" }, some { status := "active" }⟩],
   "page2")

/-- The final page of the pagination scenario: one record and an empty next
cursor. -/
def demoPage2 : List ServerResponse :=
  [⟨{ name := "server3", version := "3.0.0" }, some { status := "active" }⟩]

/-- Witness for C4 at the spec scenario: two pages, exactly two requests,
the second request carrying the first page's cursor, and the three records
concatenated in order. -/
theorem listAll_pagination_witness :
    (∀ p ∈ [demoPage1], p.2 ≠ "") ∧
    pageIsTerminal (PageResult.ok demoPage2 "") = true ∧
    ((ListAllLoop {}
        ([demoPage1].map (fun p => PageResult.ok p.1 p.2)
          ++ PageResult.ok demoPage2 "" :: [])).1.length = 1 + 1 ∧
     (ListAllLoop {}
        ([demoPage1].map (fun p => PageResult.ok p.1 p.2)
          ++ PageResult.ok demoPage2 "" :: [])).1
        = requestChain {} ([demoPage1].map (fun p => p.2)) ∧
     (∀ e, PageResult.ok demoPage2 "" = .fail e →
       (ListAllLoop {}
          ([demoPage1].map (fun p => PageResult.ok p.1 p.2)
            ++ PageResult.ok demoPage2 "" :: [])).2 = .error e) ∧
     (∀ servers, PageResult.ok demoPage2 "" = .ok servers "" →
       (ListAllLoop {}
          ([demoPage1].map (fun p => PageResult.ok p.1 p.2)
            ++ PageResult.ok demoPage2 "" :: [])).2
          = .ok ((([demoPage1].map (fun p => p.1)).flatten ++ servers).map
              (fun r => r.server)))) :=
  ⟨by decide, by decide,
   listAll_pagination {} [demoPage1] (by decide)
     (PageResult.ok demoPage2 "") (by decide) []⟩

/-- An options value whose page size is the default constant encodes the
limit parameter as 100. -/
theorem serverListQuery_limit_mem (o : ServerListOptions)
    (h : o.limit = defaultListLimit) :
    ("limit", "100") ∈ serverListQuery (some o) := by
  have h100 : (if o.limit ≠ 0 then [(("limit" : String), toString o.limit)]
      else []) = [("limit", "100")] := by
    rw [h]
    rfl
  simp only [serverListQuery, h100, List.mem_append, List.mem_cons]
  tauto

/-- An options value with zero page size encodes no limit parameter at all. -/
theorem serverListQuery_no_limit (o : ServerListOptions) (h : o.limit = 0) :
    (serverListQuery (some o)).lookup "limit" = none := by
  simp only [serverListQuery, h, ne_eq, not_true_eq_false, reduceIte]
  by_cases h1 : o.cursor = "" <;> rcases h3 : o.updatedSince with _ | t <;>
    by_cases h2 : o.search = "" <;> by_cases h4 : o.version = "" <;>
      simp [h1, h2, h3, h4, List.lookup]

/-- Every request the pagination loop issues keeps the caller's page size:
when the options carry the default page size, every issued query encodes
limit 100 (the cursor update never touches the limit field). -/
theorem listAllLoop_limit_mem (resps : List PageResult) :
    ∀ o : ServerListOptions, o.limit = defaultListLimit →
      ∀ q ∈ (ListAllLoop o resps).1, ("limit", "100") ∈ q := by
  induction resps with
  | nil =>
    intro o h q hq
    simp only [ListAllLoop, List.mem_singleton] at hq
    exact hq ▸ serverListQuery_limit_mem o h
  | cons p rest ih =>
    intro o h q hq
    cases p with
    | fail e =>
      simp only [ListAllLoop, List.mem_singleton] at hq
      exact hq ▸ serverListQuery_limit_mem o h
    | ok servers next =>
      by_cases hn : next = ""
      · simp only [ListAllLoop, if_pos hn, List.mem_singleton] at hq
        exact hq ▸ serverListQuery_limit_mem o h
      · simp only [ListAllLoop, if_neg hn, List.mem_cons] at hq
        rcases hq with h1 | h2
        · exact h1 ▸ serverListQuery_limit_mem o h
        · exact ih { o with cursor := next } h q h2

/-- Every request the pagination loop issues on zero-limit options encodes
no limit parameter. -/
theorem listAllLoop_no_limit (resps : List PageResult) :
    ∀ o : ServerListOptions, o.limit = 0 →
      ∀ q ∈ (ListAllLoop o resps).1, q.lookup "limit" = none := by
  induction resps with
  | nil =>
    intro o h q hq
    simp only [ListAllLoop, List.mem_singleton] at hq
    exact hq ▸ serverListQuery_no_limit o h
  | cons p rest ih =>
    intro o h q hq
    cases p with
    | fail e =>
      simp only [ListAllLoop, List.mem_singleton] at hq
      exact hq ▸ serverListQuery_no_limit o h
    | ok servers next =>
      by_cases hn : next = ""
      · simp only [ListAllLoop, if_pos hn, List.mem_singleton] at hq
        exact hq ▸ serverListQuery_no_limit o h
      · simp only [ListAllLoop, if_neg hn, List.mem_cons] at hq
        rcases hq with h1 | h2
        · exact h1 ▸ serverListQuery_no_limit o h
        · exact ih { o with cursor := next } h q h2

/-- C8 counterexample: ListAll invoked with nil options issues its page
request with an empty query — the request carries no limit parameter at all,
contradicting the claim that every helper's page requests carry limit 100. -/
theorem listAll_nil_options_no_limit :
    (ListAll none [PageResult.ok [] ""]).1.map (fun q => q.lookup "limit")
      = [none] := by
  rfl

/-- C8 amended: the search-based name resolvers (ListByName,
GetByNameLatest, GetByNameLatestActiveVersion) and ListByUpdatedSince send
limit 100 on every page request they issue; ListAll passes the caller's
options through unchanged, so with nil options its page requests carry no
limit parameter. -/
theorem helper_default_page_size (name since : String) :
    ("limit", "100") ∈ listByNameQuery name ∧
    ("limit", "100") ∈ getByNameLatestQuery name ∧
    ("limit", "100") ∈ getByNameLatestActiveVersionQuery name ∧
    (∀ resps, ∀ q ∈ (ListByUpdatedSince since resps).1,
      ("limit", "100") ∈ q) ∧
    (∀ resps, ∀ q ∈ (ListAll none resps).1, q.lookup "limit" = none) := by
  refine ⟨serverListQuery_limit_mem _ rfl, serverListQuery_limit_mem _ rfl,
    serverListQuery_limit_mem _ rfl, ?_, ?_⟩
  · intro resps q hq
    exact listAllLoop_limit_mem resps _ rfl q hq
  · intro resps q hq
    exact listAllLoop_no_limit resps _ rfl q hq

/-- Witness for the amended C8: at a concrete name, timestamp and two-page
trace, the resolver query and both issued time-filter page queries carry
limit 100, and the single nil-options ListAll query carries none. -/
theorem helper_default_page_size_witness :
    (serverListQuery
        (some { limit := defaultListLimit, cursor := "page2",
                updatedSince := some "2024-01-01T00:00:00Z" }))
      ∈ (ListByUpdatedSince "2024-01-01T00:00:00Z"
          [PageResult.ok [] "page2", PageResult.ok [] ""]).1 ∧
    ("limit", "100") ∈ serverListQuery
        (some { limit := defaultListLimit, cursor := "page2",
                updatedSince := some "2024-01-01T00:00:00Z" }) ∧
    ("limit", "100") ∈ listByNameQuery "exact-name" :=
  ⟨by decide,
   (helper_default_page_size "exact-name" "2024-01-01T00:00:00Z").2.2.2.1
     [PageResult.ok [] "page2", PageResult.ok [] ""]
     (serverListQuery
        (some { limit := defaultListLimit, cursor := "page2",
                updatedSince := some "2024-01-01T00:00:00Z" }))
     (by decide),
   (helper_default_page_size "exact-name" "2024-01-01T00:00:00Z").1⟩

/-- A normalized path always ends with the separator. -/
theorem normalizePath_endsWithSlash (p : String) :
    endsWithSlash (normalizePath p) = true := by
  unfold normalizePath
  by_cases h : endsWithSlash p
  · simp [h]
  · simp only [h, Bool.false_eq_true, ite_false]
    unfold endsWithSlash
    have hdata : (p ++ "/").data = p.data ++ ['/'] := rfl
    rw [hdata]
    simp

/-- C6: client construction rejects an empty base URL, a base URL the URL
parser fails on, and a scheme that is neither http nor https, each with an
error; an accepted base URL has its path normalized — when the path lacks a
trailing separator exactly one is appended (the new path is the old one plus
a single separator character), a path already ending in the separator is
unchanged, and normalization is idempotent. -/
theorem withBaseURL_validates_and_normalizes (s : String)
    (parsed : Except String URL) :
    (WithBaseURL "" parsed = .error "base URL cannot be empty") ∧
    (∀ e, s ≠ "" → parsed = .error e →
      WithBaseURL s parsed = .error ("invalid base URL: " ++ e)) ∧
    (∀ u, s ≠ "" → parsed = .ok u → u.scheme ≠ "http" → u.scheme ≠ "https" →
      WithBaseURL s parsed
        = .error ("base URL must use HTTP or HTTPS scheme, got: "
            ++ u.scheme)) ∧
    (∀ u, s ≠ "" → parsed = .ok u →
      (u.scheme = "http" ∨ u.scheme = "https") →
      WithBaseURL s parsed = .ok { u with path := normalizePath u.path } ∧
      (endsWithSlash u.path = false →
        (normalizePath u.path).data = u.path.data ++ ['/']) ∧
      (endsWithSlash u.path = true → normalizePath u.path = u.path) ∧
      normalizePath (normalizePath u.path) = normalizePath u.path) := by
  refine ⟨by simp [WithBaseURL], ?_, ?_, ?_⟩
  · intro e hs hp
    subst hp
    simp [WithBaseURL, hs]
  · intro u hs hp h1 h2
    subst hp
    simp [WithBaseURL, hs, h1, h2]
  · intro u hs hp hscheme
    subst hp
    have hcond : ¬ (u.scheme ≠ "http" ∧ u.scheme ≠ "https") := by
      rcases hscheme with h | h <;> simp [h]
    refine ⟨by simp [WithBaseURL, hs, hcond], ?_, ?_, ?_⟩
    · intro hends
      simp only [normalizePath, hends, Bool.false_eq_true, ite_false]
      rfl
    · intro hends
      simp [normalizePath, hends]
    · rw [show normalizePath (normalizePath u.path)
          = if endsWithSlash (normalizePath u.path) = true
            then normalizePath u.path else normalizePath u.path ++ "/"
          from rfl]
      rw [normalizePath_endsWithSlash u.path]
      simp

/-- The parsed form of a base URL lacking a trailing separator. -/
def demoURL : URL := { scheme := "https", host := "example.com" }

/-- The parsed form of a base URL with an unsupported scheme. -/
def demoFtpURL : URL := { scheme := "ftp", host := "example.com", path := "/" }

/-- Witness for C6 at concrete base URLs: normalization appends the
separator to an accepted URL, an ftp scheme is rejected, and a parser
failure is rejected. -/
theorem withBaseURL_validates_and_normalizes_witness :
    WithBaseURL "https://example.com" (.ok demoURL)
      = .ok { demoURL with path := normalizePath demoURL.path } ∧
    WithBaseURL "ftp://example.com/" (.ok demoFtpURL)
      = .error ("base URL must use HTTP or HTTPS scheme, got: "
          ++ demoFtpURL.scheme) ∧
    WithBaseURL "://invalid" (.error "missing protocol scheme")
      = .error ("invalid base URL: " ++ "missing protocol scheme") :=
  ⟨((withBaseURL_validates_and_normalizes "https://example.com"
        (.ok demoURL)).2.2.2 demoURL (by decide) rfl (Or.inr rfl)).1,
   (withBaseURL_validates_and_normalizes "ftp://example.com/"
        (.ok demoFtpURL)).2.2.1 demoFtpURL (by decide) rfl
     (by decide) (by decide),
   (withBaseURL_validates_and_normalizes "://invalid"
        (.error "missing protocol scheme")).2.1
     "missing protocol scheme" (by decide) rfl⟩

/-- C9: executing a request with a nil context fails immediately with the
configuration error stating the context must be non-nil; no HTTP request is
issued (the sent counter is zero) and no rate state is recorded, so no
background context is substituted. -/
theorem do_nil_context_fails {α : Type} (r : HttpResponse α) (v : α) :
    Do none r v = ⟨0, none, .error (.config "context must be non-nil")⟩ :=
  rfl

/-- C7: on a 2xx response decoded into a value, an empty body is not an
error and leaves the output at the value it held before the call (its zero
value), while a body that is not valid JSON fails the operation with the
decode error wrapping the underlying syntax message. -/
theorem do_empty_and_malformed_body {α : Type} (r : HttpResponse α) (v : α)
    (h2xx : 200 ≤ r.status ∧ r.status ≤ 299) :
    (r.body = .emptyEOF → (Do (some ()) r v).out = .ok v) ∧
    (∀ m, r.body = .synErr m →
      (Do (some ()) r v).out = .error (.decode m)) := by
  obtain ⟨st, hd, bd, em, ed⟩ := r
  simp only at h2xx
  constructor
  · intro hb
    simp only at hb
    subst hb
    simp [Do, CheckResponse, h2xx.1, h2xx.2]
  · intro m hb
    simp only at hb
    subst hb
    simp [Do, CheckResponse, h2xx.1, h2xx.2]

/-- Witness for C7 at concrete 200 responses: an empty body decodes to the
zero value without error, and a malformed body surfaces the decode error. -/
theorem do_empty_and_malformed_body_witness :
    ((200 : Nat) ≤ 200 ∧ (200 : Nat) ≤ 299) ∧
    (Do (some ())
        ({ status := 200 } : HttpResponse (Option ServerResponse))
        none).out = .ok none ∧
    (Do (some ())
        ({ status := 200, body := .synErr "invalid character" }
          : HttpResponse (Option ServerResponse)) none).out
      = .error (.decode "invalid character") :=
  ⟨by decide,
   (do_empty_and_malformed_body
      ({ status := 200 } : HttpResponse (Option ServerResponse))
      none (by decide)).1 rfl,
   (do_empty_and_malformed_body
      ({ status := 200, body := .synErr "invalid character" }
        : HttpResponse (Option ServerResponse))
      none (by decide)).2 "invalid character" rfl⟩

/-- C5: a 429 response makes the operation fail with the rate-limit error —
never the generic API error — and that error carries the Rate State parsed
from the response's rate-limit headers. -/
theorem do_429_rate_limit {α : Type} (r : HttpResponse α) (v : α)
    (h : r.status = 429) :
    (Do (some ()) r v).out
      = .error (.rateLimit 429 r.errMessage (parseRate r.headers)) ∧
    ∀ st msg det, (Do (some ()) r v).out ≠ .error (.api st msg det) := by
  obtain ⟨st, hd, bd, em, ed⟩ := r
  simp only at h
  subst h
  constructor
  · simp [Do, CheckResponse]
  · intro st0 msg det
    simp [Do, CheckResponse]

/-- The 429 response of the rate-limit scenario, with headers limit 100,
remaining 0 and a future reset timestamp. -/
def demo429 : HttpResponse (Option ServerResponse) :=
  { status := 429,
    headers := { limit := "100", remaining := "0",
                 reset := "2026-01-01T00:00:00Z" } }

/-- Witness for C5 at the rate-limit scenario: the returned error is the
rate-limit error carrying limit 100, remaining 0 and the parsed reset
timestamp. -/
theorem do_429_rate_limit_witness :
    demo429.status = 429 ∧
    (Do (some ()) demo429 none).out
      = .error (.rateLimit 429 ""
          { limit := 100, remaining := 0,
            reset := some ⟨2026, 1, 1, 0, 0, 0⟩ }) :=
  ⟨rfl, by
    rw [(do_429_rate_limit demo429 none rfl).1]
    rfl⟩

/-- The unit test's 404 response on the name-plus-version endpoint: the
version is absent and the error envelope carries the message. -/
def resp404 : HttpResponse (Option ServerResponse) :=
  { status := 404, errMessage := "Version not found" }

/-- C3 counterexample: on a 404 answer from the name-plus-version endpoint
the operation returns the classified API error — not the no-record,
no-error outcome the claim states — as the unit test
TestServersService_GetByNameExactVersion requires. -/
theorem getByNameExactVersion_404_counterexample :
    (GetByNameExactVersion (some ()) resp404).out
      = .error (.api 404 "Version not found" []) ∧
    (GetByNameExactVersion (some ()) resp404).out ≠ .ok none :=
  ⟨rfl, by
    rw [show (GetByNameExactVersion (some ()) resp404).out
        = .error (.api 404 "Version not found" []) from rfl]
    simp⟩

/-- C3 amended: GetByNameExactVersion propagates every classified failure —
a 404 included — as an error to the caller, every non-2xx status is
classified as such a failure, and the no-record-with-no-error outcome
arises exactly from a 2xx response whose body decodes to the null record. -/
theorem getByNameExactVersion_error_propagation
    (r : HttpResponse (Option ServerResponse)) :
    (∀ e, CheckResponse r = some e →
      (GetByNameExactVersion (some ()) r).out = .error e) ∧
    (¬ (200 ≤ r.status ∧ r.status ≤ 299) →
      ∃ e, CheckResponse r = some e) ∧
    (∀ u, (200 ≤ r.status ∧ r.status ≤ 299) → r.body = .value u →
      (GetByNameExactVersion (some ()) r).out
        = .ok (u.map (fun sr => sr.server))) := by
  refine ⟨?_, ?_, ?_⟩
  · intro e he
    simp [GetByNameExactVersion, Do, he, Except.map]
  · intro hbad
    by_cases h429 : r.status = 429
    · exact ⟨.rateLimit r.status r.errMessage (parseRate r.headers),
        by simp [CheckResponse, hbad, h429]⟩
    · exact ⟨.api r.status r.errMessage r.errDetails,
        by simp [CheckResponse, hbad, h429]⟩
  · intro u h2xx hbody
    obtain ⟨st, hd, bd, em, ed⟩ := r
    simp only at h2xx hbody
    subst hbody
    simp [GetByNameExactVersion, Do, CheckResponse, h2xx.1, h2xx.2,
      Except.map]

/-- A 500 response whose envelope carries the server's message. -/
def resp500 : HttpResponse (Option ServerResponse) :=
  { status := 500, errMessage := "Internal server error" }

/-- Witness for the amended C3: a concrete 500 answer is classified as the
API error and surfaced to the caller. -/
theorem getByNameExactVersion_error_propagation_witness :
    CheckResponse resp500 = some (.api 500 "Internal server error" []) ∧
    (GetByNameExactVersion (some ()) resp500).out
      = .error (.api 500 "Internal server error" []) :=
  ⟨rfl,
   (getByNameExactVersion_error_propagation resp500).1
     (.api 500 "Internal server error" []) rfl⟩

/-- C10: when the server answers a single-record fetch with a 2xx status
whose body is the JSON literal null, both Get and GetByNameExactVersion
return no record together with no error, after issuing their one request —
a successful call can yield no record even without a 404. -/
theorem get_null_body_no_record (r : HttpResponse (Option ServerResponse))
    (h2xx : 200 ≤ r.status ∧ r.status ≤ 299)
    (hnull : r.body = .value none) :
    (Get (some ()) r).out = .ok none ∧
    (GetByNameExactVersion (some ()) r).out = .ok none ∧
    (Get (some ()) r).sent = 1 := by
  obtain ⟨st, hd, bd, em, ed⟩ := r
  simp only at h2xx hnull
  subst hnull
  refine ⟨?_, ?_, ?_⟩ <;>
    simp [Get, GetByNameExactVersion, Do, CheckResponse, h2xx.1, h2xx.2,
      Except.map]

/-- A 200 response whose body is the JSON literal null, decoding to the
absent record. -/
def respNull : HttpResponse (Option ServerResponse) :=
  { status := 200, body := .value none }

/-- Witness for C10 at the concrete null-body 200 response. -/
theorem get_null_body_no_record_witness :
    ((200 : Nat) ≤ respNull.status ∧ respNull.status ≤ 299) ∧
    ((Get (some ()) respNull).out = .ok none ∧
     (GetByNameExactVersion (some ()) respNull).out = .ok none ∧
     (Get (some ()) respNull).sent = 1) :=
  ⟨by decide, get_null_body_no_record respNull (by decide) rfl⟩
